import Mathlib

/-!
Verification of the affine-map / module representation layer
(`include/mlir/IR/AffineMap.h`, `include/mlir/IR/Module.h`).

The repository ships only the two headers: the inline accessors
(`getNumDims`, `getNumSymbols`, `getNumResults`, `getResults`,
`Module::getContext`) are embedded from the source, while the bodies of
`AffineMap::get`, `AffineMap::print`, `AffineMap::dump`,
`Module::verify`, `Module::print`, `Module::dump` and the `Module`
constructor are modelled from the specification, as noted on each
definition.

Object identity is made explicit: an `MLIRContext` owns an arena (list)
of map storages, and an `AffineMap` handle (`AffineMapRef`) is the pair
of the owning context's identity and a slot into that arena.  Affine
expressions are an external, already-uniqued primitive; they are
embedded as opaque handles carrying an identity and a rendering.
-/

namespace MLIRSpec

/-- An affine expression: an external, already-uniqued primitive.  The
core only needs identity comparison (`uid`) and a textual rendering
(`text`); equal expressions are identical handles. -/
structure AffineExpr where
  uid : Nat
  text : String
deriving DecidableEq

/-- The storage of one interned affine map, as laid out in
`AffineMap.h`: the fields `numDims`, `numSymbols`, `numResults` and the
result sequence pointed to by `results`. -/
structure AffineMapStorage where
  numDims : Nat
  numSymbols : Nat
  numResults : Nat
  results : List AffineExpr
deriving DecidableEq

/-- An `MLIRContext`: the uniquing authority.  `ctxId` is the context's
own object identity; `affineMaps` is the arena of every map storage the
context has interned, in allocation order. -/
structure MLIRContext where
  ctxId : Nat
  affineMaps : List AffineMapStorage
deriving DecidableEq

/-- The object identity of an interned `AffineMap`: the owning context
together with the arena slot holding its storage. -/
structure AffineMapRef where
  ctxId : Nat
  slot : Nat
deriving DecidableEq

/-- A context with no interned maps yet, with identity `i`. -/
def emptyContext (i : Nat) : MLIRContext :=
  ⟨i, []⟩

/-- Index of the first arena slot holding storage `sig`, if any. -/
def findSlot : List AffineMapStorage → AffineMapStorage → Option Nat
  | [], _ => none
  | s :: rest, sig =>
      if s = sig then some 0 else (findSlot rest sig).map (· + 1)

/-- Dereference a map handle in a context: the storage at its slot. -/
def MLIRContext.storageOf (c : MLIRContext) (r : AffineMapRef) :
    Option AffineMapStorage :=
  c.affineMaps[r.slot]?

/-- Modelled from the spec: the body of `AffineMap::get` is not in the
repository (only its declaration in `AffineMap.h`).  §4.1: look up the
structural signature `(numDims, numSymbols, results)` in the context's
table; on hit return the existing instance, on miss allocate a new
immutable instance from the arena, insert it, and return it.  The
returned handle and the (possibly grown) context are both returned. -/
def AffineMap.get (dimCount symbolCount : Nat) (results : List AffineExpr)
    (c : MLIRContext) : AffineMapRef × MLIRContext :=
  let sig : AffineMapStorage := ⟨dimCount, symbolCount, results.length, results⟩
  match findSlot c.affineMaps sig with
  | some i => (⟨c.ctxId, i⟩, c)
  | none =>
      (⟨c.ctxId, c.affineMaps.length⟩,
       { c with affineMaps := c.affineMaps ++ [sig] })

/-- Source accessor `getNumDims` (`AffineMap.h`, line 50). -/
def AffineMapStorage.getNumDims (s : AffineMapStorage) : Nat :=
  s.numDims

/-- Source accessor `getNumSymbols` (`AffineMap.h`, line 51). -/
def AffineMapStorage.getNumSymbols (s : AffineMapStorage) : Nat :=
  s.numSymbols

/-- Source accessor `getNumResults` (`AffineMap.h`, line 52). -/
def AffineMapStorage.getNumResults (s : AffineMapStorage) : Nat :=
  s.numResults

/-- Source accessor `getResults` (`AffineMap.h`, lines 54-56): the view
`ArrayRef(results, numResults)`, i.e. the first `numResults` elements
of the block `results` points to. -/
def AffineMapStorage.getResults (s : AffineMapStorage) : List AffineExpr :=
  s.results.take s.numResults

theorem findSlot_some {l : List AffineMapStorage} {sig : AffineMapStorage}
    {i : Nat} (h : findSlot l sig = some i) : l[i]? = some sig := by
  induction l generalizing i with
  | nil => simp [findSlot] at h
  | cons s rest ih =>
      by_cases hs : s = sig
      · simp only [findSlot, if_pos hs, Option.some.injEq] at h
        subst hs
        simp [← h]
      · simp only [findSlot, if_neg hs, Option.map_eq_some'] at h
        obtain ⟨j, hj, rfl⟩ := h
        simpa using ih hj

theorem findSlot_none_append {l : List AffineMapStorage}
    {sig : AffineMapStorage} (h : findSlot l sig = none) :
    findSlot (l ++ [sig]) sig = some l.length := by
  induction l with
  | nil => simp [findSlot]
  | cons s rest ih =>
      by_cases hs : s = sig
      · simp [findSlot, if_pos hs] at h
      · simp only [findSlot, if_neg hs, Option.map_eq_none'] at h
        rw [List.cons_append]
        simp only [findSlot, if_neg hs, List.append_eq, ih h,
          Option.map_some', List.length_cons]

theorem get_deref (d s : Nat) (res : List AffineExpr) (c : MLIRContext) :
    (AffineMap.get d s res c).2.storageOf (AffineMap.get d s res c).1 =
      some ⟨d, s, res.length, res⟩ := by
  unfold AffineMap.get MLIRContext.storageOf
  cases hf : findSlot c.affineMaps ⟨d, s, res.length, res⟩ with
  | some i => simpa [hf] using findSlot_some hf
  | none => simp [hf]

theorem get_extends (d s : Nat) (res : List AffineExpr) (c : MLIRContext) :
    ∃ t, (AffineMap.get d s res c).2.affineMaps = c.affineMaps ++ t := by
  unfold AffineMap.get
  cases hf : findSlot c.affineMaps ⟨d, s, res.length, res⟩ with
  | some i => exact ⟨[], by simp [hf]⟩
  | none => exact ⟨[⟨d, s, res.length, res⟩], by simp [hf]⟩

theorem get_ctxId (d s : Nat) (res : List AffineExpr) (c : MLIRContext) :
    (AffineMap.get d s res c).1.ctxId = c.ctxId ∧
    (AffineMap.get d s res c).2.ctxId = c.ctxId := by
  unfold AffineMap.get
  cases hf : findSlot c.affineMaps ⟨d, s, res.length, res⟩ <;> simp [hf]

theorem storageOf_mono {c : MLIRContext} {r : AffineMapRef}
    {st : AffineMapStorage} (h : c.storageOf r = some st)
    (d s : Nat) (res : List AffineExpr) :
    (AffineMap.get d s res c).2.storageOf r = some st := by
  obtain ⟨t, ht⟩ := get_extends d s res c
  unfold MLIRContext.storageOf at h ⊢
  have hlt : r.slot < c.affineMaps.length := by
    by_contra hge
    rw [List.getElem?_eq_none (Nat.le_of_not_lt hge)] at h
    exact Option.noConfusion h
  rw [ht, List.getElem?_append, if_pos hlt]
  exact h

/-- C1: two calls to `AffineMap::get` with equal arguments on the same
context return the same object identity (and leave the context in the
same state); in particular the degenerate `get(0, 0, [], c)` made twice
returns the one unique empty map of `c`. -/
theorem get_uniquing_idempotent (d s : Nat) (res : List AffineExpr)
    (c : MLIRContext) :
    ((AffineMap.get d s res (AffineMap.get d s res c).2).1 =
        (AffineMap.get d s res c).1 ∧
      (AffineMap.get d s res (AffineMap.get d s res c).2).2 =
        (AffineMap.get d s res c).2) ∧
    (AffineMap.get 0 0 [] (AffineMap.get 0 0 [] c).2).1 =
      (AffineMap.get 0 0 [] c).1 := by
  have main : ∀ (d s : Nat) (res : List AffineExpr),
      (AffineMap.get d s res (AffineMap.get d s res c).2).1 =
        (AffineMap.get d s res c).1 ∧
      (AffineMap.get d s res (AffineMap.get d s res c).2).2 =
        (AffineMap.get d s res c).2 := by
    intro d s res
    unfold AffineMap.get
    cases hf : findSlot c.affineMaps ⟨d, s, res.length, res⟩ with
    | some i => simp [hf]
    | none => simp [hf, findSlot_none_append hf]
  exact ⟨main d s res, (main 0 0 []).1⟩

/-- C5: the read-only accessors of a map returned by `AffineMap::get`
report exactly the construction arguments: `getNumDims` is `dimCount`,
`getNumSymbols` is `symbolCount`, `getNumResults` is the length of
`results`, and `getResults` is the `results` sequence itself, element
for element in order. -/
theorem get_accessors (d s : Nat) (res : List AffineExpr) (c : MLIRContext) :
    ∃ st, (AffineMap.get d s res c).2.storageOf (AffineMap.get d s res c).1 =
        some st ∧
      st.getNumDims = d ∧ st.getNumSymbols = s ∧
      st.getNumResults = res.length ∧ st.getResults = res := by
  refine ⟨⟨d, s, res.length, res⟩, get_deref d s res c, rfl, rfl, rfl, ?_⟩
  simp [AffineMapStorage.getResults]

/-- C2: two calls to `AffineMap::get` whose arguments differ in
`dimCount`, in `symbolCount`, in the number of results, in their order,
or in any single result expression's identity return distinct object
identities. -/
theorem get_discrimination (d1 s1 : Nat) (res1 : List AffineExpr)
    (d2 s2 : Nat) (res2 : List AffineExpr) (c : MLIRContext)
    (hne : (d1, s1, res1) ≠ (d2, s2, res2)) :
    (AffineMap.get d2 s2 res2 (AffineMap.get d1 s1 res1 c).2).1 ≠
      (AffineMap.get d1 s1 res1 c).1 := by
  intro heq
  have h1 := get_deref d1 s1 res1 c
  have h1' := storageOf_mono h1 d2 s2 res2
  have h2 := get_deref d2 s2 res2 (AffineMap.get d1 s1 res1 c).2
  rw [heq, h1'] at h2
  apply hne
  simp only [Option.some.injEq, AffineMapStorage.mk.injEq] at h2
  obtain ⟨hd, hs, _, hres⟩ := h2
  rw [hd, hs, hres]

theorem get_discrimination_witness :
    ((1, 0, ([] : List AffineExpr)) ≠ (0, 0, ([] : List AffineExpr))) ∧
    (AffineMap.get 0 0 [] (AffineMap.get 1 0 [] (emptyContext 0)).2).1 ≠
      (AffineMap.get 1 0 [] (emptyContext 0)).1 :=
  ⟨by decide, get_discrimination 1 0 [] 0 0 [] (emptyContext 0) (by decide)⟩

/-- C7: `AffineMap::get` on two distinct contexts never returns the
same object identity, even for structurally identical arguments. -/
theorem get_cross_context (d s : Nat) (res : List AffineExpr)
    (a b : MLIRContext) (hne : a.ctxId ≠ b.ctxId) :
    (AffineMap.get d s res a).1 ≠ (AffineMap.get d s res b).1 := by
  intro heq
  exact hne (by rw [← (get_ctxId d s res a).1, heq, (get_ctxId d s res b).1])

theorem get_cross_context_witness :
    ((emptyContext 0).ctxId ≠ (emptyContext 1).ctxId) ∧
    (AffineMap.get 0 0 [] (emptyContext 0)).1 ≠
      (AffineMap.get 0 0 [] (emptyContext 1)).1 :=
  ⟨by decide, get_cross_context 0 0 [] (emptyContext 0) (emptyContext 1)
    (by decide)⟩

/-- Apply a sequence of `AffineMap::get` requests to a context, keeping
only the final context state.  The uniquing context exposes no other
state-changing operation (no deletion or eviction, §4.1). -/
def applyGets : List (Nat × Nat × List AffineExpr) → MLIRContext → MLIRContext
  | [], c => c
  | (d, s, res) :: ops, c => applyGets ops (AffineMap.get d s res c).2

/-- C4: an interned `AffineMap` is immutable and never destroyed: after
any further sequence of operations of the system (all further `get`
requests), the map's handle still dereferences to exactly the same
storage — same `numDims`, `numSymbols`, `numResults` and result
sequence.  In the embedding, `get` is the only constructor of maps,
mirroring the private constructor and deleted copy in `AffineMap.h`. -/
theorem affineMap_immutable {c : MLIRContext} {r : AffineMapRef}
    {st : AffineMapStorage} (h : c.storageOf r = some st)
    (ops : List (Nat × Nat × List AffineExpr)) :
    (applyGets ops c).storageOf r = some st := by
  induction ops generalizing c with
  | nil => exact h
  | cons op rest ih =>
      obtain ⟨d, s, res⟩ := op
      exact ih (storageOf_mono h d s res)

theorem affineMap_immutable_witness :
    ((AffineMap.get 1 0 [] (emptyContext 0)).2.storageOf ⟨0, 0⟩ =
        some ⟨1, 0, 0, []⟩) ∧
    (applyGets [(2, 3, [])]
        (AffineMap.get 1 0 [] (emptyContext 0)).2).storageOf ⟨0, 0⟩ =
      some ⟨1, 0, 0, []⟩ :=
  ⟨by decide, affineMap_immutable (by decide) [(2, 3, [])]⟩

/-- Contexts reachable by the system: a fresh empty context followed by
any sequence of `AffineMap::get` requests.  Every interned map in the
system lives in such a context. -/
inductive Reachable : MLIRContext → Prop
  | empty (i : Nat) : Reachable (emptyContext i)
  | step (d s : Nat) (res : List AffineExpr) (c : MLIRContext) :
      Reachable c → Reachable (AffineMap.get d s res c).2

theorem get_arena (d s : Nat) (res : List AffineExpr) (c : MLIRContext) :
    (AffineMap.get d s res c).2.affineMaps = c.affineMaps ∨
    (AffineMap.get d s res c).2.affineMaps =
      c.affineMaps ++ [⟨d, s, res.length, res⟩] := by
  unfold AffineMap.get
  cases hf : findSlot c.affineMaps ⟨d, s, res.length, res⟩ with
  | some i => left; simp [hf]
  | none => right; simp [hf]

theorem reachable_wf {c : MLIRContext} (h : Reachable c) :
    ∀ st ∈ c.affineMaps, st.numResults = st.results.length := by
  induction h with
  | empty i => simp [emptyContext]
  | step d s res c hc ih =>
      intro st hst
      rcases get_arena d s res c with ha | ha <;> rw [ha] at hst
      · exact ih st hst
      · simp only [List.mem_append, List.mem_singleton] at hst
        rcases hst with hst | rfl
        · exact ih st hst
        · rfl

/-- C9: for every `AffineMap` of the system, the sequence returned by
`getResults` has length exactly `getNumResults`: the `ArrayRef` view
built from the `results` pointer and the `numResults` field exposes
neither more nor fewer expressions than the map's stated result
count. -/
theorem getResults_length {c : MLIRContext} (hr : Reachable c)
    {r : AffineMapRef} {st : AffineMapStorage}
    (h : c.storageOf r = some st) :
    st.getResults.length = st.getNumResults := by
  have hwf : st.numResults = st.results.length := by
    refine reachable_wf hr st ?_
    exact List.getElem?_mem h
  simp [AffineMapStorage.getResults, AffineMapStorage.getNumResults,
    List.length_take, hwf]

theorem getResults_length_witness :
    (AffineMapStorage.getResults ⟨2, 1, 0, []⟩).length =
      AffineMapStorage.getNumResults ⟨2, 1, 0, []⟩ :=
  getResults_length
    (Reachable.step 2 1 [] (emptyContext 5) (Reachable.empty 5))
    (show ((AffineMap.get 2 1 [] (emptyContext 5)).2.storageOf ⟨5, 0⟩ =
      some ⟨2, 1, 0, []⟩) by decide)

/-- Modelled from the spec: the dimension list of §4.2, `numDims`
entries `d0, d1, ...`, empty for zero entries. -/
def dimListText (n : Nat) : String :=
  String.intercalate ", " ((List.range n).map fun i => "d" ++ toString i)

/-- Modelled from the spec: the symbol list of §4.2, `numSymbols`
entries `s0, s1, ...`. -/
def symbolListText (m : Nat) : String :=
  String.intercalate ", " ((List.range m).map fun i => "s" ++ toString i)

/-- Modelled from the spec: the body of `AffineMap::print` is not in
the repository (only its declaration in `AffineMap.h`).  §4.2 grammar:
a parenthesized dimension list, a bracketed symbol list omitted
entirely when `numSymbols = 0`, then an arrow and the parenthesized
comma-separated renderings of the result expressions in order. -/
def AffineMapStorage.printText (s : AffineMapStorage) : String :=
  "(" ++ dimListText s.numDims ++ ")" ++
    (if s.numSymbols = 0 then ""
     else "[" ++ symbolListText s.numSymbols ++ "]") ++
    " -> (" ++
    String.intercalate ", " (s.getResults.map AffineExpr.text) ++ ")"

/-- Modelled from the spec: the body of `AffineMap::dump` is not in the
repository; per §4.3/§6 `dump` is `print` targeted at the fixed
diagnostic stream, so the text it emits is `printText`. -/
def AffineMapStorage.dumpText (s : AffineMapStorage) : String :=
  s.printText

/-- C6: `AffineMap::print` is deterministic — the same map always
renders to the same text — and follows the §4.2 grammar; in particular
the 2-dim, 0-symbol, 3-result map `[d0 floordiv 128, d0 mod 128, d1]`
renders as `"(d0, d1) -> (d0 floordiv 128, d0 mod 128, d1)"` with the
symbol bracket omitted. -/
theorem print_deterministic :
    (∀ s t : AffineMapStorage, s = t → s.printText = t.printText) ∧
    (∀ s : AffineMapStorage, s.numSymbols = 0 →
      s.printText = "(" ++ dimListText s.numDims ++ ")" ++ " -> (" ++
        String.intercalate ", " (s.getResults.map AffineExpr.text) ++ ")") ∧
    AffineMapStorage.printText
        ⟨2, 0, 3,
          [⟨10, "d0 floordiv 128"⟩, ⟨11, "d0 mod 128"⟩, ⟨12, "d1"⟩]⟩ =
      "(d0, d1) -> (d0 floordiv 128, d0 mod 128, d1)" := by
  refine ⟨fun s t h => by rw [h], fun s h => ?_, by decide⟩
  simp [AffineMapStorage.printText, h]

theorem print_deterministic_witness :
    AffineMapStorage.printText ⟨1, 0, 0, []⟩ =
      AffineMapStorage.printText ⟨1, 0, 0, []⟩ :=
  print_deterministic.1 ⟨1, 0, 0, []⟩ ⟨1, 0, 0, []⟩ rfl

/-- Modelled from the spec: a use site of an affine map inside a
function body.  The function/instruction IR is an external collaborator
(`Function.h` is not in the repository); this layer only sees, per use
site, the referenced map and the dimension/symbol operand counts the
site supplies. -/
structure MapUse where
  map : AffineMapRef
  dimOperands : Nat
  symbolOperands : Nat
deriving DecidableEq

/-- Modelled from the spec: the fragment of a `Function` this layer
needs — its textual rendering and the affine-map use sites inside its
body. -/
structure Function where
  text : String
  uses : List MapUse
deriving DecidableEq

/-- The `Module` container from `Module.h`: the owned `functionList`,
the `affineMapList` of non-owning map references, and the private
back-reference to the owning context (held by identity, as the C++
object holds a pointer). -/
structure Module where
  functionList : List Function
  affineMapList : List AffineMapRef
  context : Nat
deriving DecidableEq

/-- Source accessor `Module::getContext` (`Module.h`, line 36). -/
def Module.getContext (m : Module) : Nat :=
  m.context

/-- Modelled from the spec: the body of the `Module(MLIRContext*)`
constructor is not in the repository.  A fresh module is bound to the
supplied context and owns no functions and records no maps yet. -/
def Module.new (ctxId : Nat) : Module :=
  ⟨[], [], ctxId⟩

/-- Modelled from the spec: IR-building code appends a function to the
module's function list. -/
def Module.appendFunction (f : Function) (m : Module) : Module :=
  { m with functionList := m.functionList ++ [f] }

/-- Modelled from the spec: IR-building code records a used affine map
in the module's affine-map list. -/
def Module.appendMap (r : AffineMapRef) (m : Module) : Module :=
  { m with affineMapList := m.affineMapList ++ [r] }

/-- Modelled from the spec: whether a use site's dimension/symbol
operand counts match the `numDims`/`numSymbols` of the map it uses, the
map dereferenced in the owning context. -/
def MapUse.countsOk (ctx : MLIRContext) (u : MapUse) : Bool :=
  match ctx.storageOf u.map with
  | some st => u.dimOperands == st.numDims && u.symbolOperands == st.numSymbols
  | none => false

/-- Modelled from the spec: the body of `Module::verify` is not in the
repository (only its declaration in `Module.h`).  §4.3: traverse every
owned function and every affine-map use site inside it, and check that
the used map is present in the module's recorded `affineMapList` and
that the use site's dimension/symbol operand counts equal the map's
`numDims`/`numSymbols`.  Returns `true` when verification passes (the
C++ function returns with no effect) and `false` when it would report a
descriptive fault and abort the process. -/
def Module.verify (ctx : MLIRContext) (m : Module) : Bool :=
  m.functionList.all fun f => f.uses.all fun u =>
    decide (u.map ∈ m.affineMapList) && u.countsOk ctx

theorem countsOk_iff (ctx : MLIRContext) (u : MapUse) :
    u.countsOk ctx = true ↔
      ∃ st, ctx.storageOf u.map = some st ∧
        u.dimOperands = st.numDims ∧ u.symbolOperands = st.numSymbols := by
  unfold MapUse.countsOk
  cases h : ctx.storageOf u.map with
  | none => simp
  | some st => simp [Bool.and_eq_true, beq_iff_eq]

/-- C3: `Module::verify` passes exactly when every affine map
referenced at any use site inside any owned function is present in the
module's `affineMapList` and is used with dimension/symbol operand
counts equal to that map's `numDims` and `numSymbols`; otherwise it
fails (in the C++ code: reports a descriptive fault and aborts). -/
theorem verify_iff (ctx : MLIRContext) (m : Module) :
    m.verify ctx = true ↔
      ∀ f ∈ m.functionList, ∀ u ∈ f.uses,
        u.map ∈ m.affineMapList ∧
        ∃ st, ctx.storageOf u.map = some st ∧
          u.dimOperands = st.numDims ∧ u.symbolOperands = st.numSymbols := by
  unfold Module.verify
  simp [List.all_eq_true, Bool.and_eq_true, decide_eq_true_eq, countsOk_iff]

/-- Modelled from the spec: the body of `Module::print` is not in the
repository.  §4.3: render the functions in insertion order, then the
affine-map list, one map per line, using the §4.2 map grammar. -/
def Module.printText (ctx : MLIRContext) (m : Module) : String :=
  String.intercalate "\n" (m.functionList.map Function.text) ++ "\n" ++
    String.intercalate "\n"
      (m.affineMapList.map fun r =>
        match ctx.storageOf r with
        | some st => st.printText
        | none => "")

/-- Modelled from the spec: the body of `Module::dump` is not in the
repository; `dump` is `print` on the fixed diagnostic stream. -/
def Module.dumpText (ctx : MLIRContext) (m : Module) : String :=
  m.printText ctx

/-- C8: for every `AffineMap` and every `Module`, `dump` produces
exactly the text `print` produces for the same object, directed at the
fixed diagnostic stream; `dump` has no behaviour beyond that. -/
theorem dump_matches_print (s : AffineMapStorage) (ctx : MLIRContext)
    (m : Module) :
    s.dumpText = s.printText ∧ m.dumpText ctx = m.printText ctx :=
  ⟨rfl, rfl⟩

/-- C10: a freshly constructed `Module` has an empty `functionList`, an
empty `affineMapList`, and `getContext` returns exactly the context
supplied at construction; no subsequent module operation (appending a
function or recording a map) changes what `getContext` returns. -/
theorem module_new_spec (i : Nat) (f : Function) (r : AffineMapRef)
    (m : Module) :
    (Module.new i).functionList = [] ∧
    (Module.new i).affineMapList = [] ∧
    (Module.new i).getContext = i ∧
    (m.appendFunction f).getContext = m.getContext ∧
    (m.appendMap r).getContext = m.getContext :=
  ⟨rfl, rfl, rfl, rfl, rfl⟩

end MLIRSpec
